import Mathlib

/-!
Shallow embedding of `src/minecraft_gen.py` (procedural terrain generator).

Grids are modelled as total functions `ℕ → ℕ → α` together with an explicit
`size`; only indices `i, j < size` are meaningful, matching the `size × size`
numpy arrays of the source.  Exact arithmetic (`ℚ`, and `ℝ` for the shading
chain) stands in for machine floats; a float whose value is non-finite
(NaN or ±infinity, as produced by a division whose denominator is zero) is
modelled as `none : Option ℝ`.  The external scipy Voronoi tessellation is
not part of the repository; where a function of the source calls it
(`relax`), the tessellation is abstracted as a function parameter that
returns the vertex polygons of the bounded regions of a point set, exactly
the data the source extracts from the scipy object.
-/

namespace MinecraftGen

/-- Row-major list of all pixel coordinates of a `size × size` grid, the
order in which every `for i ... for j ...` loop of the source (and
`np.where`) visits the pixels. -/
def idxList (size : ℕ) : List (ℕ × ℕ) :=
  (List.range size).flatMap (fun i => (List.range size).map (fun j => (i, j)))

/-! ### PointRelaxer (`relax`, source lines 42–54) -/

/-- Unweighted mean of a polygon's vertices (`poly.mean(axis=0)`); the
source only applies it to the nonempty vertex lists of bounded regions. -/
def centroid (poly : List (ℚ × ℚ)) : ℚ × ℚ :=
  ((poly.map Prod.fst).sum / (poly.length : ℚ),
   (poly.map Prod.snd).sum / (poly.length : ℚ))

/-- Coordinatewise `np.clip(0, size)`. -/
def clipPt (size : ℚ) (p : ℚ × ℚ) : ℚ × ℚ :=
  (max 0 (min size p.1), max 0 (min size p.2))

/-- `relax(points, size, k)` from the source: `k` rounds of Lloyd
relaxation.  `regions` abstracts the external scipy tessellation: it
returns the vertex polygons of the bounded Voronoi regions of a point set
(the source skips empty regions and regions touching the `-1` sentinel;
`regions` returns exactly the polygons that survive that filter). -/
def relax (regions : List (ℚ × ℚ) → List (List (ℚ × ℚ))) (size : ℚ)
    (points : List (ℚ × ℚ)) : ℕ → List (ℚ × ℚ)
  | 0 => points
  | k + 1 =>
      relax regions size
        ((regions points).map (fun poly => clipPt size (centroid poly))) k

/-! ### Scatterer (`filter_inbox`, `generate_trees`, `place_trees`,
source lines 273–296) -/

/-- Truncation of a non-negative float to an unsigned integer
(`astype(np.uint32)`); the source only applies it to coordinates already
clipped into `[0, size]`. -/
def truncNat (x : ℚ) : ℕ := (Int.floor x).toNat

/-- `filter_inbox(pts, size=size)`: keep the points whose two coordinates
are both `< size` (`np.all(pts < size, axis=1)`). -/
def filter_inbox (size : ℕ) (pts : List (ℕ × ℕ)) : List (ℕ × ℕ) :=
  pts.filter (fun p => p.1 < size && p.2 < size)

/-- `generate_trees(n, size=size)`: the `n` random points drawn by
`np.random.randint` are abstracted as the parameter `initial`; they are
relaxed 10 times, truncated to unsigned integers and filtered in-box. -/
def generate_trees (regions : List (ℚ × ℚ) → List (List (ℚ × ℚ)))
    (size : ℕ) (initial : List (ℚ × ℚ)) : List (ℕ × ℕ) :=
  filter_inbox size
    ((relax regions (size : ℚ) initial 10).map
      (fun p => (truncNat p.1, truncNat p.2)))

/-- `place_trees` (source lines 285–296): rasterize the generated tree
points into a boolean grid, AND it with `mask > a`, the river/land mask
and `adjusted_height_river_map < 0.5`, then emit the surviving positions
in `np.where` row-major order as `(column, row)` pairs (the `[::-1].T`). -/
def place_trees (regions : List (ℚ × ℚ) → List (List (ℚ × ℚ)))
    (initial : List (ℚ × ℚ)) (size : ℕ) (mask : ℕ → ℕ → ℚ) (a : ℚ)
    (river_land_mask : ℕ → ℕ → Bool)
    (adjusted_height_river_map : ℕ → ℕ → ℚ) : List (ℕ × ℕ) :=
  let trees := generate_trees regions size initial
  ((idxList size).filter (fun q =>
      decide ((q.1, q.2) ∈ trees) && decide (a < mask q.1 q.2) &&
        river_land_mask q.1 q.2 &&
        decide (adjusted_height_river_map q.1 q.2 < 1 / 2))).map
    (fun q => (q.2, q.1))

/-! ### CellAggregator (`average_cells`, `fill_cells`,
source lines 84–112) -/

/-- Number of pixels of the grid whose cell id is `p` (the `count[p]`
accumulator of `average_cells`). -/
def cellCount (size : ℕ) (vor : ℕ → ℕ → ℕ) (p : ℕ) : ℕ :=
  ((idxList size).filter (fun q => vor q.1 q.2 = p)).length

/-- Sum of the companion data over the pixels whose cell id is `p` (the
`sum_[p]` accumulator of `average_cells`). -/
def cellSum (size : ℕ) (vor : ℕ → ℕ → ℕ) (data : ℕ → ℕ → ℚ) (p : ℕ) : ℚ :=
  (((idxList size).filter (fun q => vor q.1 q.2 = p)).map
    (fun q => data q.1 q.2)).sum

/-- `np.max(vor)` over the grid (0 on the empty grid, which the source
never produces). -/
def vorMax (size : ℕ) (vor : ℕ → ℕ → ℕ) : ℕ :=
  ((idxList size).map (fun q => vor q.1 q.2)).foldl max 0

/-- `average_cells(vor, data)`: a table of length `np.max(vor) + 1`
holding the mean of `data` over each cell, with the zero-pixel cells
explicitly given average 0 (the `where=count != 0` guard). -/
def average_cells (size : ℕ) (vor : ℕ → ℕ → ℕ) (data : ℕ → ℕ → ℚ) :
    List ℚ :=
  (List.range (vorMax size vor + 1)).map (fun p =>
    if cellCount size vor p = 0 then 0
    else cellSum size vor data p / (cellCount size vor p : ℚ))

/-- `fill_cells(vor, data)`: broadcast the per-cell table back to the
pixels.  Indexing the table out of its range is a Python `IndexError`,
modelled as `none`. -/
def fill_cells (size : ℕ) (vor : ℕ → ℕ → ℕ) (table : List ℚ) :
    ℕ → ℕ → Option ℚ :=
  fun i j => table.get? (vor i j)

/-! ### HeightShaper (`quantize`, source lines 127–129) -/

/-- `np.linspace(-1, 1, n+1)`: the bin edge `bins[k] = -1 + 2k/n`. -/
def qbin (n k : ℕ) : ℚ := -1 + 2 * (k : ℚ) / (n : ℚ)

/-- `np.digitize(x, bins)` for the increasing edge list `qbin n`: the
number of edges that are `≤ x`. -/
def digitize (n : ℕ) (x : ℚ) : ℕ :=
  ((Finset.range (n + 1)).filter (fun k => qbin n k ≤ x)).card

/-- `quantize(data, n)` at one value: `(np.digitize(x, bins) - 1).clip(0, n-1)`. -/
def quantize (n : ℕ) (x : ℚ) : ℤ :=
  min ((n : ℤ) - 1) (max 0 ((digitize n x : ℤ) - 1))

/-! ### BoundaryDetector (`get_boundary`, source lines 248–270) -/

/-- The `clip` lambda of `get_boundary`: `max(0, min(size - 1, x))`. -/
def pyclip (size : ℕ) (x : ℤ) : ℤ := max 0 (min ((size : ℤ) - 1) x)

/-- The index list of a Python slice `[lo:hi]` for clipped (hence
non-negative) bounds. -/
def sliceRange (lo hi : ℤ) : List ℕ :=
  (List.range (hi - lo).toNat).map (fun t => lo.toNat + t)

/-- The flattened neighborhood slice
`vor_map[clip(i-kernel):clip(i+kernel+1), clip(j-kernel):clip(j+kernel+1)].flatten()`. -/
def nbhdSlice (size : ℕ) (vor : ℕ → ℕ → ℕ) (kernel : ℕ) (i j : ℕ) :
    List ℕ :=
  (sliceRange (pyclip size ((i : ℤ) - kernel))
      (pyclip size ((i : ℤ) + kernel + 1))).flatMap (fun r =>
    (sliceRange (pyclip size ((j : ℤ) - kernel))
        (pyclip size ((j : ℤ) + kernel + 1))).map (fun c => vor r c))

/-- `check_for_mult(a)`: compares `a[i]` against `b = a[0]` for
`i in range(len(a) - 1)` only, so the last element of `a` is never
examined.  `a[0]` on an empty slice would raise in Python; the model
returns `false` there (the source's default calls keep the slice
nonempty). -/
def check_for_mult (a : List ℕ) : Bool :=
  match a with
  | [] => false
  | b :: _ => (a.take (a.length - 1)).any (fun x => x != b)

/-- `get_boundary(vor_map, kernel, size=size)` at one pixel. -/
def get_boundary (size : ℕ) (vor : ℕ → ℕ → ℕ) (kernel : ℕ) :
    ℕ → ℕ → Bool :=
  fun i j => check_for_mult (nbhdSlice size vor kernel i j)

/-! ### ShadingEngine gradients (`gradient`, source lines 132–142).
`ndimage.convolve` (mode `reflect`) with a centred length-3 kernel
`[w0, w1, w2]` along a row is
`out[i, j] = w0·in[i, j+1] + w1·in[i, j] + w2·in[i, j-1]`, the virtual
neighbours at `-1` and `size` reflecting to `0` and `size - 1`. -/

/-- Reflect-mode index for an upper overshoot of at most one
(`ndimage` boundary mode `reflect`); the saturating `ℕ` subtraction
already realises the reflection of `-1` to `0`. -/
def rhiN (size k : ℕ) : ℕ := if k < size then k else size - 1

/-- `ndimage.convolve` of a grid with the 1×3 row kernel `[w0, w1, w2]`
(convolution along the x axis, reflect boundary). -/
def convRow3 (size : ℕ) (w0 w1 w2 : ℚ) (g : ℕ → ℕ → ℚ) : ℕ → ℕ → ℚ :=
  fun i j => w0 * g i (rhiN size (j + 1)) + w1 * g i j + w2 * g i (j - 1)

/-- `ndimage.convolve` of a grid with the 3×1 column kernel
`[w0, w1, w2]ᵀ` (convolution along the y axis, reflect boundary). -/
def convCol3 (size : ℕ) (w0 w1 w2 : ℚ) (g : ℕ → ℕ → ℚ) : ℕ → ℕ → ℚ :=
  fun i j => w0 * g (rhiN size (i + 1)) j + w1 * g i j + w2 * g (i - 1) j

/-- Cross-correlation (`ndimage.correlate`) of a grid with the 1×3 row
kernel `[w0, w1, w2]`: `out[i, j] = w0·in[i, j-1] + w1·in[i, j] + w2·in[i, j+1]`. -/
def corrRow3 (size : ℕ) (w0 w1 w2 : ℚ) (g : ℕ → ℕ → ℚ) : ℕ → ℕ → ℚ :=
  fun i j => w0 * g i (j - 1) + w1 * g i j + w2 * g i (rhiN size (j + 1))

/-- Cross-correlation of a grid with the 3×1 column kernel `[w0, w1, w2]ᵀ`. -/
def corrCol3 (size : ℕ) (w0 w1 w2 : ℚ) (g : ℕ → ℕ → ℚ) : ℕ → ℕ → ℚ :=
  fun i j => w0 * g (i - 1) j + w1 * g i j + w2 * g (rhiN size (i + 1)) j

/-- The kernel built by the source: `kernel = np.arange(-1, 2)` is
`[-1, 0, 1]`, then `kernel = -kernel / 2`, giving `[0.5, 0, -0.5]`. -/
def gradKernel : ℚ × ℚ × ℚ := (-(-1 : ℚ) / 2, -(0 : ℚ) / 2, -(1 : ℚ) / 2)

/-- `gradient(im_smooth)`: convolve with `gradKernel` as a row for the
x gradient and as a column for the y gradient. -/
def gradient (size : ℕ) (im : ℕ → ℕ → ℚ) :
    (ℕ → ℕ → ℚ) × (ℕ → ℕ → ℚ) :=
  (convRow3 size gradKernel.1 gradKernel.2.1 gradKernel.2.2 im,
   convCol3 size gradKernel.1 gradKernel.2.1 gradKernel.2.2 im)

/-! ### ShadingEngine normal map and composite
(`sobel`, `compute_normal_map`, `get_normal_map`, `get_normal_light`,
`apply_height_map`, source lines 145–216).  Float values are modelled as
`Option ℝ`: `some x` is a finite value, `none` a non-finite one (the NaN
or ±infinity produced by a division whose denominator is zero); the
`Option` arithmetic propagates non-finiteness exactly as float NaN does. -/

/-- A float value: finite (`some`) or non-finite (`none`). -/
abbrev FVal := Option ℝ

/-- Float addition: finite inputs add, non-finiteness propagates. -/
noncomputable def fadd (a b : FVal) : FVal :=
  a.bind fun x => b.map fun y => x + y

/-- Float multiplication. -/
noncomputable def fmul (a b : FVal) : FVal :=
  a.bind fun x => b.map fun y => x * y

/-- Float division: a zero denominator yields a non-finite value. -/
noncomputable def fdiv (a b : FVal) : FVal :=
  a.bind fun x => b.bind fun y => if y = 0 then none else some (x / y)

/-- Float square root (`np.sqrt`): NaN on negative input. -/
noncomputable def fsqrt (a : FVal) : FVal :=
  a.bind fun x => if x < 0 then none else some (Real.sqrt x)

/-- `ndimage.convolve` of a grid with a centred 3×3 kernel `K`
(reflect boundary): `out[i,j] = Σ K[u][v] · in[i+1-u][j+1-v]`. -/
noncomputable def conv3x3 (size : ℕ) (K : ℕ → ℕ → ℝ) (g : ℕ → ℕ → ℝ) :
    ℕ → ℕ → ℝ :=
  fun i j =>
    K 0 0 * g (rhiN size (i + 1)) (rhiN size (j + 1)) +
      K 0 1 * g (rhiN size (i + 1)) j +
      K 0 2 * g (rhiN size (i + 1)) (j - 1) +
      K 1 0 * g i (rhiN size (j + 1)) + K 1 1 * g i j + K 1 2 * g i (j - 1) +
      K 2 0 * g (i - 1) (rhiN size (j + 1)) + K 2 1 * g (i - 1) j +
      K 2 2 * g (i - 1) (j - 1)

/-- The Sobel x kernel `[[-1,0,1],[-2,0,2],[-1,0,1]]`. -/
noncomputable def sobelKx : ℕ → ℕ → ℝ := fun u v =>
  if v = 0 then (if u = 1 then -2 else -1)
  else if v = 2 then (if u = 1 then 2 else 1) else 0

/-- `sobel(im_smooth)`: x gradient with the Sobel kernel, y gradient with
its transpose. -/
noncomputable def sobel (size : ℕ) (im : ℕ → ℕ → ℝ) :
    (ℕ → ℕ → ℝ) × (ℕ → ℕ → ℝ) :=
  (conv3x3 size sobelKx im, conv3x3 size (fun u v => sobelKx v u) im)

/-- `np.max` over a grid (the grids the source passes are nonempty, so
seeding the fold with `g 0 0` is exact). -/
noncomputable def gridMax (size : ℕ) (g : ℕ → ℕ → ℝ) : ℝ :=
  ((idxList size).map (fun q => g q.1 q.2)).foldl max (g 0 0)

/-- `compute_normal_map(gradient_x, gradient_y, intensity)` (source
lines 157–191): per-pixel channels
`((gx/max)/norm, (gy/max)/norm, (1/strength)/norm) * 0.5 + 0.5` where
`max` is the larger of the two grid maxima and
`strength = max / (max * (1/intensity))`.  No zero guard exists in the
source: a zero `max` makes every division non-finite. -/
noncomputable def compute_normal_map (size : ℕ) (gx gy : ℕ → ℕ → ℝ)
    (intensity : ℝ) : ℕ → ℕ → FVal × FVal × FVal :=
  let max_x := gridMax size gx
  let max_y := gridMax size gy
  let max_value := if max_x < max_y then max_y else max_x
  let intens := fdiv (some 1) (some intensity)
  let strength := fdiv (some max_value) (fmul (some max_value) intens)
  fun i j =>
    let nx := fdiv (some (gx i j)) (some max_value)
    let ny := fdiv (some (gy i j)) (some max_value)
    let nz := fdiv (some 1) strength
    let norm :=
      fsqrt (fadd (fadd (fmul nx nx) (fmul ny ny)) (fmul nz nz))
    (fadd (fmul (fdiv nx norm) (some (1 / 2))) (some (1 / 2)),
     fadd (fmul (fdiv ny norm) (some (1 / 2))) (some (1 / 2)),
     fadd (fmul (fdiv nz norm) (some (1 / 2))) (some (1 / 2)))

/-- `get_normal_map(im, intensity)`: Sobel gradients fed to
`compute_normal_map`. -/
noncomputable def get_normal_map (size : ℕ) (im : ℕ → ℕ → ℝ)
    (intensity : ℝ) : ℕ → ℕ → FVal × FVal × FVal :=
  compute_normal_map size (sobel size im).1 (sobel size im).2 intensity

/-- `np.interp(x, (x0, x1), (y0, y1))`: piecewise-linear with clamping
outside `[x0, x1]`. -/
noncomputable def interpR (x0 x1 y0 y1 x : ℝ) : ℝ :=
  if x ≤ x0 then y0
  else if x1 ≤ x then y1
  else y0 + (x - x0) * (y1 - y0) / (x1 - x0)

/-- `get_normal_light(height_map_)`: mean of the x and y channels of the
normal map, remapped from `[0, 1]` to `[-1, 1]`. -/
noncomputable def get_normal_light (size : ℕ) (h : ℕ → ℕ → ℝ) :
    ℕ → ℕ → FVal :=
  fun i j =>
    let nm := get_normal_map size h 1 i j
    (fdiv (fadd nm.1 nm.2.1) (some 2)).map (interpR 0 1 (-1) 1)

/-- `astype(int)` of a float: truncation toward zero. -/
noncomputable def truncInt (x : ℝ) : ℤ := if 0 ≤ x then ⌊x⌋ else ⌈x⌉

/-- The combined shading signal of `apply_height_map`:
`normal_map * land_mask + smooth_map / 2 * (~land_mask)`, the boolean
mask acting as a 0/1 factor. -/
noncomputable def shade_signal (size : ℕ)
    (smooth_map height_map : ℕ → ℕ → ℝ) (land_mask : ℕ → ℕ → Bool)
    (i j : ℕ) : FVal :=
  let landR : ℝ := if land_mask i j then 1 else 0
  fadd (fmul (get_normal_light size height_map i j) (some landR))
    (fmul (fdiv (some (smooth_map i j)) (some 2)) (some (1 - landR)))

/-- `apply_height_map(im_map, smooth_map, height_map, land_mask)`
(source lines 206–216): blend normal light (on land) with half the
smooth map (off land), remap `[-1, 1] → [-192, 192]`, truncate to
integer, and add to the base colour — the source performs no clipping of
the sum.  Only the first component of the source's returned pair (the
output colour grid) is modelled. -/
noncomputable def apply_height_map (size : ℕ) (im_map : ℕ → ℕ → ℕ → ℤ)
    (smooth_map height_map : ℕ → ℕ → ℝ) (land_mask : ℕ → ℕ → Bool) :
    ℕ → ℕ → ℕ → Option ℤ :=
  fun i j c =>
    (((shade_signal size smooth_map height_map land_mask i j).map
          (interpR (-1) 1 (-192) 192)).map truncInt).map
      (fun o => im_map i j c + o)

/-! ### Concrete grids used by the closed theorems below. -/

/-- A region oracle whose only bounded region is the single-vertex
polygon at the origin. -/
def regions0 : List (ℚ × ℚ) → List (List (ℚ × ℚ)) := fun _ => [[(0, 0)]]

/-- A 4×4 cell-id grid: id 1 at pixel (2,2), id 0 everywhere else. -/
def vorC : ℕ → ℕ → ℕ := fun i j => if i = 2 && j = 2 then 1 else 0

/-- The ramp grid `im[i][j] = j`. -/
def imC : ℕ → ℕ → ℚ := fun _ j => (j : ℚ)

/-- The plane grid `im[i][j] = 3·i + j`. -/
def imW : ℕ → ℕ → ℚ := fun i j => 3 * (i : ℚ) + (j : ℚ)

/-- A 2×2 height map: 1 on the first row, 0 on the second. -/
noncomputable def h0R : ℕ → ℕ → ℝ := fun i _ => if i = 0 then 1 else 0

/-- The constant-1 smooth map. -/
noncomputable def smooth1 : ℕ → ℕ → ℝ := fun _ _ => 1

/-- The all-water land mask. -/
def land0 : ℕ → ℕ → Bool := fun _ _ => false

/-- The constant-255 base colour grid. -/
def im255 : ℕ → ℕ → ℕ → ℤ := fun _ _ _ => 255

/-- The all-zero real grid. -/
noncomputable def zeroR : ℕ → ℕ → ℝ := fun _ _ => 0

/-! ## Helper lemmas -/

lemma mem_idxList {size i j : ℕ} :
    (i, j) ∈ idxList size ↔ i < size ∧ j < size := by
  simp [idxList]

lemma le_foldl_max (l : List ℕ) (a : ℕ) : a ≤ l.foldl max a := by
  induction l generalizing a with
  | nil => exact le_refl a
  | cons x xs ih => exact le_trans (le_max_left a x) (ih (max a x))

lemma foldl_max_le {l : List ℕ} {x : ℕ} (hx : x ∈ l) (a : ℕ) :
    x ≤ l.foldl max a := by
  induction l generalizing a with
  | nil => cases hx
  | cons y ys ih =>
      cases hx with
      | head => exact le_trans (le_max_right a x) (le_foldl_max ys (max a x))
      | tail _ h => exact ih h (max a y)

lemma vor_le_vorMax {size : ℕ} (vor : ℕ → ℕ → ℕ) {i j : ℕ}
    (hi : i < size) (hj : j < size) : vor i j ≤ vorMax size vor := by
  refine foldl_max_le ?_ 0
  exact List.mem_map.mpr ⟨(i, j), mem_idxList.mpr ⟨hi, hj⟩, rfl⟩

lemma cellCount_pos {size : ℕ} (vor : ℕ → ℕ → ℕ) {i j : ℕ}
    (hi : i < size) (hj : j < size) : 0 < cellCount size vor (vor i j) := by
  refine List.length_pos.mpr ?_
  intro hnil
  have hmem : (i, j) ∈
      (idxList size).filter (fun q => vor q.1 q.2 = vor i j) :=
    List.mem_filter.mpr ⟨mem_idxList.mpr ⟨hi, hj⟩, by simp⟩
  rw [hnil] at hmem
  cases hmem

/-! ## Claims -/

/-- C8: `relax` with `k = 0` iterations returns the input point set
unchanged — the returned points are equal, point for point and in the
same order, to the input points. -/
theorem relax_zero_returns_input
    (regions : List (ℚ × ℚ) → List (List (ℚ × ℚ))) (size : ℚ)
    (points : List (ℚ × ℚ)) : relax regions size points 0 = points := rfl

/-- C9: `average_cells` returns a per-cell table of length
`max(vor) + 1`, so the id of every pixel indexes into the table and
`fill_cells` applied to that table never reads out of range. -/
theorem average_cells_table_covers (size : ℕ) (vor : ℕ → ℕ → ℕ)
    (data : ℕ → ℕ → ℚ) (i j : ℕ) (hi : i < size) (hj : j < size) :
    (average_cells size vor data).length = vorMax size vor + 1 ∧
      vor i j < (average_cells size vor data).length ∧
      (fill_cells size vor (average_cells size vor data) i j).isSome := by
  have hlen : (average_cells size vor data).length = vorMax size vor + 1 := by
    simp [average_cells]
  have hlt : vor i j < (average_cells size vor data).length := by
    rw [hlen]
    exact Nat.lt_succ_of_le (vor_le_vorMax vor hi hj)
  refine ⟨hlen, hlt, ?_⟩
  unfold fill_cells
  rw [List.get?_eq_getElem?, List.getElem?_eq_getElem hlt]
  rfl

/-- Witness for C9 at a concrete 1×1 grid. -/
theorem average_cells_table_covers_witness :
    (0 : ℕ) < 1 ∧
      ((average_cells 1 (fun _ _ => 0) (fun _ _ => (7 : ℚ))).length =
          vorMax 1 (fun _ _ => 0) + 1 ∧
        (0 : ℕ) < (average_cells 1 (fun _ _ => 0) (fun _ _ => (7 : ℚ))).length ∧
        (fill_cells 1 (fun _ _ => 0)
            (average_cells 1 (fun _ _ => 0) (fun _ _ => (7 : ℚ))) 0 0).isSome) :=
  ⟨by decide,
    average_cells_table_covers 1 (fun _ _ => 0) (fun _ _ => (7 : ℚ)) 0 0
      (by decide) (by decide)⟩

/-- C2: `average_cells` followed by `fill_cells` on a constant-`c`
companion grid returns the constant-`c` grid exactly at every pixel. -/
theorem fill_average_const (size : ℕ) (vor : ℕ → ℕ → ℕ) (c : ℚ)
    (i j : ℕ) (hi : i < size) (hj : j < size) :
    fill_cells size vor (average_cells size vor (fun _ _ => c)) i j =
      some c := by
  have hle : vor i j < vorMax size vor + 1 :=
    Nat.lt_succ_of_le (vor_le_vorMax vor hi hj)
  have hcount : cellCount size vor (vor i j) ≠ 0 :=
    Nat.pos_iff_ne_zero.mp (cellCount_pos vor hi hj)
  have hsum : cellSum size vor (fun _ _ => c) (vor i j) =
      (cellCount size vor (vor i j) : ℚ) * c := by
    simp [cellSum, cellCount, List.map_const', List.sum_replicate,
      nsmul_eq_mul]
  unfold fill_cells average_cells
  rw [List.get?_map, List.get?_range hle]
  simp only [Option.map_some', if_neg hcount, hsum]
  rw [mul_div_cancel_left₀ _ (Nat.cast_ne_zero.mpr hcount)]

/-- Witness for C2 at a concrete 1×1 grid with constant 5. -/
theorem fill_average_const_witness :
    (0 : ℕ) < 1 ∧
      fill_cells 1 (fun _ _ => 0)
          (average_cells 1 (fun _ _ => 0) (fun _ _ => (5 : ℚ))) 0 0 =
        some 5 :=
  ⟨by decide, fill_average_const 1 (fun _ _ => 0) 5 0 0 (by decide) (by decide)⟩

/-- C3: for `n ≥ 1` and inputs in `[-1, 1]`, the output of `quantize`
lies in `[0, n-1]`, and `quantize` is monotonic non-decreasing in the
input value. -/
theorem quantize_range_and_mono (n : ℕ) (x y : ℚ) (hn : 1 ≤ n)
    (hx1 : -1 ≤ x) (hx2 : x ≤ 1) (hy1 : -1 ≤ y) (hy2 : y ≤ 1)
    (hxy : x ≤ y) :
    (0 ≤ quantize n x ∧ quantize n x ≤ (n : ℤ) - 1) ∧
      quantize n x ≤ quantize n y := by
  have hd : digitize n x ≤ digitize n y := by
    refine Finset.card_le_card (Finset.monotone_filter_right _ ?_)
    intro k hk
    exact le_trans hk hxy
  unfold quantize
  omega

/-- Witness for C3 at `n = 2`, `x = 0`, `y = 1`. -/
theorem quantize_range_and_mono_witness :
    (1 ≤ 2 ∧ (0 : ℚ) ≤ 1) ∧
      ((0 ≤ quantize 2 0 ∧ quantize 2 0 ≤ (2 : ℤ) - 1) ∧
        quantize 2 0 ≤ quantize 2 1) :=
  ⟨⟨by decide, by decide⟩,
    quantize_range_and_mono 2 0 1 (by decide) (by decide) (by decide)
      (by decide) (by decide) (by decide)⟩

/-- C10: every point returned by `generate_trees` has both coordinates
in `[0, size)` (they are natural numbers, hence non-negative, and
`filter_inbox` removes any point with a coordinate `≥ size`), so
rasterizing them into a `size × size` mask never indexes out of
bounds. -/
theorem generate_trees_inbounds
    (regions : List (ℚ × ℚ) → List (List (ℚ × ℚ))) (size : ℕ)
    (initial : List (ℚ × ℚ)) (p : ℕ × ℕ)
    (hp : p ∈ generate_trees regions size initial) :
    p.1 < size ∧ p.2 < size := by
  unfold generate_trees filter_inbox at hp
  have := List.mem_filter.mp hp
  simpa using this.2

/-- Witness for C10: a concrete tessellation oracle whose relaxed point
set is `[(0, 0)]`, on a 1×1 grid. -/
theorem generate_trees_inbounds_witness :
    (0, 0) ∈ generate_trees regions0 1 [] ∧ ((0, 0) : ℕ × ℕ).1 < 1 ∧
      ((0, 0) : ℕ × ℕ).2 < 1 := by
  have hmem : (0, 0) ∈ generate_trees regions0 1 [] := by
    simp [generate_trees, filter_inbox, relax, regions0, centroid, clipPt,
      truncNat]
  exact ⟨hmem, generate_trees_inbounds regions0 1 [] (0, 0) hmem⟩

/-- C4: every coordinate pair `(x, y)` returned by `place_trees`
corresponds to a grid position `(y, x)` that holds a scattered tree
point, has `mask > a`, has a true `river_land_mask`, and has
`adjusted_height_river_map < 0.5`. -/
theorem place_trees_sound
    (regions : List (ℚ × ℚ) → List (List (ℚ × ℚ)))
    (initial : List (ℚ × ℚ)) (size : ℕ) (mask : ℕ → ℕ → ℚ) (a : ℚ)
    (river_land_mask : ℕ → ℕ → Bool)
    (adjusted_height_river_map : ℕ → ℕ → ℚ) (x y : ℕ)
    (hxy : (x, y) ∈
      place_trees regions initial size mask a river_land_mask
        adjusted_height_river_map) :
    (y, x) ∈ generate_trees regions size initial ∧ a < mask y x ∧
      river_land_mask y x = true ∧
      adjusted_height_river_map y x < 1 / 2 := by
  unfold place_trees at hxy
  simp only [List.mem_map, List.mem_filter, Bool.and_eq_true,
    decide_eq_true_eq] at hxy
  obtain ⟨q, ⟨_, ⟨⟨hq1, hq2⟩, hq3⟩, hq4⟩, heq⟩ := hxy
  have h1 : q.2 = x := congrArg Prod.fst heq
  have h2 : q.1 = y := congrArg Prod.snd heq
  subst h1 h2
  exact ⟨hq1, hq2, hq3, hq4⟩

/-- Witness for C4 on a concrete 1×1 instance where the single tree
survives all three masks. -/
theorem place_trees_sound_witness :
    (0, 0) ∈
        place_trees regions0 [] 1 (fun _ _ => 1) (1 / 2)
          (fun _ _ => true) (fun _ _ => 0) ∧
      ((0, 0) ∈ generate_trees regions0 1 [] ∧
        (1 : ℚ) / 2 < 1 ∧ true = true ∧ (0 : ℚ) < 1 / 2) := by
  have hmem : (0, 0) ∈
      place_trees regions0 [] 1 (fun _ _ => 1) (1 / 2)
        (fun _ _ => true) (fun _ _ => 0) := by
    simp [place_trees, generate_trees, filter_inbox, relax, regions0,
      centroid, clipPt, truncNat, idxList]
    exact ⟨0, 0, by norm_num, by norm_num⟩
  exact ⟨hmem,
    place_trees_sound regions0 [] 1 (fun _ _ => 1) (1 / 2)
      (fun _ _ => true) (fun _ _ => 0) 0 0 hmem⟩

/-- C1 (failing input): on the 4×4 grid `vorC` whose only nonzero id
sits at pixel (2,2), the 3×3 neighborhood of pixel (1,1) (`kernel = 1`,
fully inside the grid) contains the two distinct ids `vorC 1 1 = 0` and
`vorC 2 2 = 1`, yet `get_boundary` reports `false` there:
`check_for_mult` never examines the last element of the flattened
neighborhood (its loop runs over `range(len(a) - 1)`), and the slice
bound `clip(i + kernel + 1)` is clipped to `size - 1` instead of `size`,
so the claimed "more than one distinct cell id ⟹ boundary" fails. -/
theorem get_boundary_misses_distinct_id :
    get_boundary 4 vorC 1 1 1 = false ∧ vorC 2 2 ≠ vorC 1 1 := by decide

/-- C7 (counterexample): on the ramp grid `im[i][j] = j`, the x gradient
produced by `gradient` at pixel (0,0) is `1/2`, whereas convolving with
the kernel `[-0.5, 0, 0.5]` stated by the spec (same `ndimage.convolve`
semantics, reflect boundary) gives `-1/2`: the source's kernel is
`-np.arange(-1, 2)/2 = [0.5, 0, -0.5]`, the sign-flip of the spec's. -/
theorem gradient_kernel_sign_counterexample :
    (gradient 2 imC).1 0 0 = 1 / 2 ∧
      convRow3 2 (-(1 : ℚ) / 2) 0 (1 / 2) imC 0 0 = -(1 / 2) ∧
      (gradient 2 imC).1 0 0 ≠ convRow3 2 (-(1 : ℚ) / 2) 0 (1 / 2) imC 0 0 := by
  refine ⟨?_, ?_, ?_⟩ <;>
    norm_num [gradient, gradKernel, convRow3, imC, rhiN]

/-- C7 (amended): `gradient` convolves each axis with the kernel
`[0.5, 0, -0.5]` — equivalently, it cross-correlates with
`[-0.5, 0, 0.5]` — so every interior pixel receives the central
difference `(f[+1] - f[-1]) / 2` along the corresponding axis (x along
rows, y along columns, reflect boundary). -/
theorem gradient_is_correlation_central_difference (size : ℕ)
    (im : ℕ → ℕ → ℚ) (i j : ℕ) (hi0 : 0 < i) (hi1 : i + 1 < size)
    (hj0 : 0 < j) (hj1 : j + 1 < size) :
    ((gradient size im).1 = corrRow3 size (-(1 : ℚ) / 2) 0 (1 / 2) im ∧
        (gradient size im).2 = corrCol3 size (-(1 : ℚ) / 2) 0 (1 / 2) im) ∧
      (gradient size im).1 i j = (im i (j + 1) - im i (j - 1)) / 2 ∧
      (gradient size im).2 i j = (im (i + 1) j - im (i - 1) j) / 2 := by
  have hx : (gradient size im).1 =
      corrRow3 size (-(1 : ℚ) / 2) 0 (1 / 2) im := by
    funext a b
    simp only [gradient, gradKernel, convRow3, corrRow3]
    ring
  have hy : (gradient size im).2 =
      corrCol3 size (-(1 : ℚ) / 2) 0 (1 / 2) im := by
    funext a b
    simp only [gradient, gradKernel, convCol3, corrCol3]
    ring
  refine ⟨⟨hx, hy⟩, ?_, ?_⟩
  · simp only [gradient, gradKernel, convRow3, rhiN, if_pos hj1]
    ring
  · simp only [gradient, gradKernel, convCol3, rhiN, if_pos hi1]
    ring

/-- Witness for the amended C7 on the 3×3 plane grid `im[i][j] = 3i + j`
at the interior pixel (1,1). -/
theorem gradient_is_correlation_central_difference_witness :
    (0 < 1 ∧ 1 + 1 < 3) ∧
      (((gradient 3 imW).1 = corrRow3 3 (-(1 : ℚ) / 2) 0 (1 / 2) imW ∧
          (gradient 3 imW).2 = corrCol3 3 (-(1 : ℚ) / 2) 0 (1 / 2) imW) ∧
        (gradient 3 imW).1 1 1 = (imW 1 (1 + 1) - imW 1 (1 - 1)) / 2 ∧
        (gradient 3 imW).2 1 1 = (imW (1 + 1) 1 - imW (1 - 1) 1) / 2) :=
  ⟨⟨by decide, by decide⟩,
    gradient_is_correlation_central_difference 3 imW 1 1 (by decide)
      (by decide) (by decide) (by decide)⟩

/-- C6 (failing input): on all-zero gradients (as a constant height map
produces) with intensity 1, `compute_normal_map` divides by the zero
gradient maximum with no guard — `strength = 0 / (0 * 1)` and the
channel divisions are all division by zero — so every channel of the
returned normal map is non-finite (`none`), contradicting the claim
that a defined default is substituted and no non-finite value appears. -/
theorem compute_normal_map_zero_gradient_nonfinite :
    compute_normal_map 1 zeroR zeroR 1 0 0 = (none, none, none) := by
  norm_num [compute_normal_map, zeroR, gridMax, idxList, fdiv, fmul, fadd,
    fsqrt, List.range_succ]

lemma sobel_h0R_x_00 : conv3x3 2 sobelKx h0R 0 0 = 0 := by
  norm_num [conv3x3, sobelKx, h0R, rhiN]

lemma sobel_h0R_y_00 : conv3x3 2 (fun u v => sobelKx v u) h0R 0 0 = 4 := by
  norm_num [conv3x3, sobelKx, h0R, rhiN]

lemma sobel_h0R_x_gridMax : gridMax 2 (conv3x3 2 sobelKx h0R) = 0 := by
  norm_num [gridMax, idxList, conv3x3, sobelKx, h0R, rhiN, List.range_succ]

lemma sobel_h0R_y_gridMax :
    gridMax 2 (conv3x3 2 (fun u v => sobelKx v u) h0R) = 4 := by
  norm_num [gridMax, idxList, conv3x3, sobelKx, h0R, rhiN, List.range_succ]

lemma light_h0R_00 : (get_normal_light 2 h0R 0 0).isSome := by
  simp only [get_normal_light, get_normal_map, compute_normal_map, sobel,
    sobel_h0R_x_gridMax, sobel_h0R_y_gridMax, sobel_h0R_x_00,
    sobel_h0R_y_00]
  norm_num [fdiv, fmul, fadd, fsqrt, Real.sqrt_eq_zero']

lemma ahm_concrete :
    apply_height_map 2 im255 smooth1 h0R land0 0 0 0 = some 351 := by
  obtain ⟨v, hv⟩ := Option.isSome_iff_exists.mp light_h0R_00
  have hsig : shade_signal 2 smooth1 h0R land0 0 0 = some (1 / 2) := by
    simp only [shade_signal, land0, smooth1, hv]
    norm_num [fadd, fmul, fdiv]
  simp only [apply_height_map, hsig, Option.map_some']
  norm_num [interpR, truncInt, im255]

lemma interpR_offset_bounds (x : ℝ) :
    -192 ≤ interpR (-1) 1 (-192) 192 x ∧
      interpR (-1) 1 (-192) 192 x ≤ 192 := by
  unfold interpR
  split_ifs with h1 h2
  · norm_num
  · norm_num
  · push_neg at h1 h2
    constructor <;> nlinarith

lemma truncInt_bounds {x : ℝ} (h1 : -192 ≤ x) (h2 : x ≤ 192) :
    -192 ≤ truncInt x ∧ truncInt x ≤ 192 := by
  unfold truncInt
  split_ifs with h
  · refine ⟨le_trans (by norm_num) (Int.floor_nonneg.mpr h), ?_⟩
    have hf : (⌊x⌋ : ℝ) ≤ 192 := le_trans (Int.floor_le x) h2
    exact_mod_cast hf
  · push_neg at h
    have hcz : ⌈x⌉ ≤ 0 := Int.ceil_le.mpr (by exact_mod_cast h.le)
    refine ⟨?_, le_trans hcz (by norm_num)⟩
    have hc : (-192 : ℝ) ≤ (⌈x⌉ : ℝ) := le_trans h1 (Int.le_ceil x)
    exact_mod_cast hc

/-- C5 (counterexample): with every base channel equal to 255 (inside
`[0, 255]`), an all-water land mask, a constant-1 smooth map and the
2×2 height map `h0R`, `apply_height_map` returns channel value
`255 + 96 = 351 > 255`: the source adds the `[-192, 192]` offset to the
base colour without clipping the sum to `[0, 255]`. -/
theorem apply_height_map_not_clipped :
    apply_height_map 2 im255 smooth1 h0R land0 0 0 0 = some 351 ∧
      ¬ ((351 : ℤ) ≤ 255) :=
  ⟨ahm_concrete, by decide⟩

/-- C5 (amended): `apply_height_map` remaps the combined shading signal
to `[-192, 192]`, truncates it to an integer offset, and adds it to the
base colour with no final clipping; for base channel values in
`[0, 255]`, every finite output channel value therefore lies in
`[-192, 447]` (not necessarily in `[0, 255]`). -/
theorem apply_height_map_offset_bounds (size : ℕ) (im : ℕ → ℕ → ℕ → ℤ)
    (smooth h : ℕ → ℕ → ℝ) (land : ℕ → ℕ → Bool) (i j c : ℕ) (w : ℤ)
    (hlo : 0 ≤ im i j c) (hhi : im i j c ≤ 255)
    (hw : apply_height_map size im smooth h land i j c = some w) :
    -192 ≤ w ∧ w ≤ 447 := by
  unfold apply_height_map at hw
  cases hsig : shade_signal size smooth h land i j with
  | none => rw [hsig] at hw; simp at hw
  | some v =>
      rw [hsig] at hw
      simp only [Option.map_some'] at hw
      have hw' : im i j c + truncInt (interpR (-1) 1 (-192) 192 v) = w :=
        Option.some.inj hw
      have hb := interpR_offset_bounds v
      have ht := truncInt_bounds hb.1 hb.2
      omega

/-- Witness for the amended C5 at the concrete input of the
counterexample. -/
theorem apply_height_map_offset_bounds_witness :
    (0 ≤ im255 0 0 0 ∧ im255 0 0 0 ≤ 255 ∧
        apply_height_map 2 im255 smooth1 h0R land0 0 0 0 = some 351) ∧
      (-192 ≤ (351 : ℤ) ∧ (351 : ℤ) ≤ 447) :=
  ⟨⟨by decide, by decide, ahm_concrete⟩,
    apply_height_map_offset_bounds 2 im255 smooth1 h0R land0 0 0 0 351
      (by decide) (by decide) ahm_concrete⟩

end MinecraftGen
